/-
  Verification of the glabu package file resolution and filtering pipeline.

  Shallow embedding of the Rust sources:
    - src/glabu/src/endpoints/packages.rs   (package listing, filtering, download)
    - src/glabu/src/endpoints/projects.rs   (project resolver)
    - src/crates/glabu/src/cli.rs           (encode_project_id)
    - src/glabu/src/models/package_list_item.rs (data model)

  Network responses and the external JSON deserializer are inputs of the
  embedding (a `Server` record of response functions, or an explicit parse
  function); everything the repository's own code does is translated
  directly from the source.
-/
import Mathlib

namespace Glabu

/-! ## Regular expressions

The Rust code filters file names with `regex::Regex::is_match`, which is an
unanchored search: it succeeds iff some substring of the haystack matches the
pattern.  We model compiled patterns as a small regex AST with the standard
semantics `RMatch`, an executable Brzozowski-derivative matcher `matchFull`
for whole-string matching, and `is_match` as the unanchored search over all
substrings, mirroring the library's contract. -/

inductive Regexp where
  | emptyset
  | eps
  | char (c : Char)
  | dot
  | concat (r1 r2 : Regexp)
  | alt (r1 r2 : Regexp)
  | star (r : Regexp)
  deriving DecidableEq, Repr

/-- Does the regex accept the empty string? -/
def Regexp.nullable : Regexp → Bool
  | .emptyset => false
  | .eps => true
  | .char _ => false
  | .dot => false
  | .concat r1 r2 => r1.nullable && r2.nullable
  | .alt r1 r2 => r1.nullable || r2.nullable
  | .star _ => true

/-- Brzozowski derivative of a regex with respect to one character. -/
def Regexp.deriv : Regexp → Char → Regexp
  | .emptyset, _ => .emptyset
  | .eps, _ => .emptyset
  | .char c, a => if c = a then .eps else .emptyset
  | .dot, _ => .eps
  | .concat r1 r2, a =>
      if r1.nullable then .alt (.concat (r1.deriv a) r2) (r2.deriv a)
      else .concat (r1.deriv a) r2
  | .alt r1 r2, a => .alt (r1.deriv a) (r2.deriv a)
  | .star r, a => .concat (r.deriv a) (.star r)

/-- Whole-string matching by iterated derivatives. -/
def Regexp.matchFull (r : Regexp) (s : List Char) : Bool :=
  (s.foldl Regexp.deriv r).nullable

/-- The usual language semantics of regexes.  In the `starCons` rule the first
iteration consumes at least one character; this normal form denotes the same
Kleene-star language and makes inversion straightforward. -/
inductive RMatch : Regexp → List Char → Prop where
  | eps : RMatch .eps []
  | char (c : Char) : RMatch (.char c) [c]
  | dot (c : Char) : RMatch .dot [c]
  | concat {r1 r2 : Regexp} {s1 s2 : List Char} :
      RMatch r1 s1 → RMatch r2 s2 → RMatch (.concat r1 r2) (s1 ++ s2)
  | altL {r1 r2 : Regexp} {s : List Char} : RMatch r1 s → RMatch (.alt r1 r2) s
  | altR {r1 r2 : Regexp} {s : List Char} : RMatch r2 s → RMatch (.alt r1 r2) s
  | starNil {r : Regexp} : RMatch (.star r) []
  | starCons {r : Regexp} {c : Char} {s1 s2 : List Char} :
      RMatch r (c :: s1) → RMatch (.star r) s2 → RMatch (.star r) (c :: s1 ++ s2)

theorem RMatch.concat_inv {r1 r2 : Regexp} {s : List Char}
    (h : RMatch (.concat r1 r2) s) :
    ∃ s1 s2, s = s1 ++ s2 ∧ RMatch r1 s1 ∧ RMatch r2 s2 := by
  cases h with
  | concat h1 h2 => exact ⟨_, _, rfl, h1, h2⟩

theorem RMatch.star_inv {r : Regexp} {s : List Char} (h : RMatch (.star r) s) :
    s = [] ∨ ∃ c s1 s2, s = c :: s1 ++ s2 ∧ RMatch r (c :: s1) ∧ RMatch (.star r) s2 := by
  cases h with
  | starNil => exact Or.inl rfl
  | starCons h1 h2 => exact Or.inr ⟨_, _, _, rfl, h1, h2⟩

theorem Regexp.nullable_iff (r : Regexp) : r.nullable = true ↔ RMatch r [] := by
  induction r with
  | emptyset =>
      constructor
      · intro h; simp [Regexp.nullable] at h
      · intro h; cases h
  | eps =>
      constructor
      · intro _; exact RMatch.eps
      · intro _; rfl
  | char c =>
      constructor
      · intro h; simp [Regexp.nullable] at h
      · intro h; cases h
  | dot =>
      constructor
      · intro h; simp [Regexp.nullable] at h
      · intro h; cases h
  | concat r1 r2 ih1 ih2 =>
      constructor
      · intro h
        simp only [Regexp.nullable, Bool.and_eq_true] at h
        exact RMatch.concat (ih1.mp h.1) (ih2.mp h.2)
      · intro h
        obtain ⟨s1, s2, heq, h1, h2⟩ := h.concat_inv
        obtain ⟨e1, e2⟩ := List.append_eq_nil.mp heq.symm
        subst e1; subst e2
        simp only [Regexp.nullable, Bool.and_eq_true]
        exact ⟨ih1.mpr h1, ih2.mpr h2⟩
  | alt r1 r2 ih1 ih2 =>
      constructor
      · intro h
        simp only [Regexp.nullable, Bool.or_eq_true] at h
        cases h with
        | inl h => exact RMatch.altL (ih1.mp h)
        | inr h => exact RMatch.altR (ih2.mp h)
      · intro h
        simp only [Regexp.nullable, Bool.or_eq_true]
        cases h with
        | altL h => exact Or.inl (ih1.mpr h)
        | altR h => exact Or.inr (ih2.mpr h)
  | star r _ =>
      constructor
      · intro _; exact RMatch.starNil
      · intro _; rfl

theorem Regexp.deriv_iff (r : Regexp) :
    ∀ (c : Char) (s : List Char), RMatch (r.deriv c) s ↔ RMatch r (c :: s) := by
  induction r with
  | emptyset =>
      intro c s
      constructor
      · intro h; cases h
      · intro h; cases h
  | eps =>
      intro c s
      constructor
      · intro h; cases h
      · intro h; cases h
  | char c' =>
      intro c s
      simp only [Regexp.deriv]
      by_cases hEq : c' = c
      · simp only [hEq, if_pos rfl]
        constructor
        · intro h; cases h; exact RMatch.char c
        · intro h; cases h; exact RMatch.eps
      · simp only [if_neg hEq]
        constructor
        · intro h; cases h
        · intro h; cases h; exact absurd rfl hEq
  | dot =>
      intro c s
      simp only [Regexp.deriv]
      constructor
      · intro h; cases h; exact RMatch.dot c
      · intro h; cases h; exact RMatch.eps
  | concat r1 r2 ih1 ih2 =>
      intro c s
      simp only [Regexp.deriv]
      by_cases hnull : r1.nullable = true
      · simp only [if_pos hnull]
        constructor
        · intro h
          cases h with
          | altL h' =>
            cases h' with
            | concat h1 h2 => exact RMatch.concat ((ih1 c _).mp h1) h2
          | altR h' =>
            exact RMatch.concat ((Regexp.nullable_iff r1).mp hnull) ((ih2 c _).mp h')
        · intro h
          obtain ⟨s1, s2, heq, h1, h2⟩ := h.concat_inv
          cases s1 with
          | nil =>
            simp only [List.nil_append] at heq
            subst heq
            exact RMatch.altR ((ih2 c _).mpr h2)
          | cons a s1' =>
            simp only [List.cons_append, List.cons.injEq] at heq
            obtain ⟨ha, hs⟩ := heq
            subst ha; subst hs
            exact RMatch.altL (RMatch.concat ((ih1 c _).mpr h1) h2)
      · simp only [if_neg hnull]
        constructor
        · intro h
          cases h with
          | concat h1 h2 => exact RMatch.concat ((ih1 c _).mp h1) h2
        · intro h
          obtain ⟨s1, s2, heq, h1, h2⟩ := h.concat_inv
          cases s1 with
          | nil =>
            exact absurd ((Regexp.nullable_iff r1).mpr h1) (by simpa using hnull)
          | cons a s1' =>
            simp only [List.cons_append, List.cons.injEq] at heq
            obtain ⟨ha, hs⟩ := heq
            subst ha; subst hs
            exact RMatch.concat ((ih1 c _).mpr h1) h2
  | alt r1 r2 ih1 ih2 =>
      intro c s
      simp only [Regexp.deriv]
      constructor
      · intro h
        cases h with
        | altL h' => exact RMatch.altL ((ih1 c s).mp h')
        | altR h' => exact RMatch.altR ((ih2 c s).mp h')
      · intro h
        cases h with
        | altL h' => exact RMatch.altL ((ih1 c s).mpr h')
        | altR h' => exact RMatch.altR ((ih2 c s).mpr h')
  | star r ih =>
      intro c s
      simp only [Regexp.deriv]
      constructor
      · intro h
        cases h with
        | concat h1 h2 => exact RMatch.starCons ((ih c _).mp h1) h2
      · intro h
        rcases h.star_inv with heq | ⟨c0, s1, s2, heq, h1, h2⟩
        · exact absurd heq (List.cons_ne_nil c s)
        · simp only [List.cons_append, List.cons.injEq] at heq
          obtain ⟨ha, hs⟩ := heq
          subst ha; subst hs
          exact RMatch.concat ((ih _ _).mpr h1) h2

theorem Regexp.matchFull_iff (s : List Char) :
    ∀ (r : Regexp), r.matchFull s = true ↔ RMatch r s := by
  induction s with
  | nil => intro r; exact Regexp.nullable_iff r
  | cons c t ih =>
      intro r
      have hstep : Regexp.matchFull r (c :: t) = Regexp.matchFull (r.deriv c) t := rfl
      rw [hstep]
      exact (ih (r.deriv c)).trans (Regexp.deriv_iff r c t)

/-- `regex::Regex::is_match`: unanchored search, true iff some substring of the
haystack is accepted by the pattern. -/
def Regexp.is_match (r : Regexp) (s : String) : Bool :=
  s.toList.tails.any fun t => t.inits.any fun m => r.matchFull m

theorem Regexp.is_match_iff (r : Regexp) (s : String) :
    r.is_match s = true ↔
      ∃ pre mid post, s.toList = pre ++ mid ++ post ∧ RMatch r mid := by
  unfold Regexp.is_match
  simp only [List.any_eq_true, List.mem_tails, List.mem_inits]
  constructor
  · rintro ⟨t, hts, m, hmt, hm⟩
    obtain ⟨pre, hpre⟩ := hts
    obtain ⟨post, hpost⟩ := hmt
    refine ⟨pre, m, post, ?_, (Regexp.matchFull_iff m r).mp hm⟩
    rw [← hpre, ← hpost, List.append_assoc]
  · rintro ⟨pre, mid, post, hs, hm⟩
    refine ⟨mid ++ post, ⟨pre, ?_⟩, mid, ⟨post, rfl⟩, (Regexp.matchFull_iff mid r).mpr hm⟩
    rw [hs, List.append_assoc]

/-! ## Data model (src/glabu/src/models/package_list_item.rs) -/

/-- One package record as returned by the package listing endpoint. -/
structure PackageInfo where
  id : Nat
  name : String
  version : String
  tags : List String
  created_at : Option String
  last_downloaded_at : Option String
  package_type : Option String
  status : Option String
  deriving DecidableEq, Repr

/-- One package file record.  `version` and `name` are absent in the remote
response (deserialized as `none`) and are filled in client-side by the
enrichment step. -/
structure PackageFileInfo where
  id : Nat
  package_id : Nat
  created_at : String
  file_name : String
  size : Option Nat
  file_md5 : Option String
  file_sha1 : Option String
  file_sha256 : Option String
  version : Option String
  name : Option String
  deriving DecidableEq, Repr

/-- Project record (src/glabu/src/models/project.rs).  The resolver treats the
parsed project opaquely, so only the identifying fields are carried here. -/
structure Project where
  id : Nat
  name : String
  path_with_namespace : String
  deriving DecidableEq, Repr

/-- The `\x7bstatus, output\x7d` result object the download pipeline prints on
success (`PrintOutput` is declared in `endpoints/mod.rs`; its two fields are
fixed by the construction site in packages.rs: `status: "ok", output: outputs`). -/
structure PrintOutput where
  status : String
  output : List String
  deriving DecidableEq, Repr

/-- Result of running a fallible Rust function: `Ok`, `Err(Box<dyn Error>)`
carrying the error message, or a `panic\x21` / `unwrap` abort. -/
inductive Outcome (α : Type) where
  | ok (a : α)
  | err (msg : String)
  | panicked (msg : String)
  deriving DecidableEq, Repr

/-- An HTTP response, reduced to what the code inspects: status and body text. -/
structure HttpResponse where
  status : Nat
  body : String
  deriving DecidableEq, Repr

/-- One HTTP request issued by the pipeline, as recorded in the trace:
`packagesApi pid path query` is a GET on `/projects/\x7bpid\x7d/packages\x7bpath\x7d`
with the given query pairs (the `packages_get_helper` route), `apiGet p` is a
GET on `gitlab_api_url p`, and `fetchFile url` is a package file download. -/
inductive Request where
  | packagesApi (project_id : Nat) (path : String) (query : List (String × String))
  | apiGet (url_path : String)
  | fetchFile (url : String)
  deriving DecidableEq, Repr

/-- Responses of the remote side, one field per distinct call shape the code
makes.  The JSON deserialization step of each call is folded into the field's
type (the parsed value); parse failures are not relevant to any claim below
except for the project resolver, which keeps its parser explicit. -/
structure Server where
  /-- Parsed response to `packages_get` (list packages with query pairs). -/
  packages : Nat → List (String × String) → List PackageInfo
  /-- Parsed response to `package_files_get project_id package_id query`. -/
  packageFiles : Nat → Nat → List (String × String) → List PackageFileInfo
  /-- Response to `PackageAction::run`'s raw-URL listing: status plus the
  parsed package list of the body. -/
  listRun : String → Nat × List PackageInfo
  /-- Response to a package file download GET. -/
  fetch : String → HttpResponse

/-! ## Endpoint setup (src/glabu/src/endpoints/setup.rs) -/

/-- Default host (`GITLAB_HOST` unset). -/
def gitlab_host : String := "https://gitlab.com"

/-- `format!("\x7b\x7d/api/v4\x7b\x7d", gitlab_host(), path)`. -/
def gitlab_api_url (path : String) : String := gitlab_host ++ "/api/v4" ++ path

/-! ## Package file filters (packages.rs lines 61-101) -/

/-- The two `PackageFileFilter` implementations: `PatternFilter(Regex)` and
`FilenameFilter(String)`. -/
inductive FileFilter where
  | pattern (r : Regexp)
  | filename (n : String)
  deriving DecidableEq, Repr

/-- `PackageFileFilter::filter`: the pattern variant runs an unanchored regex
search on `file_name`; the filename variant compares for equality. -/
def FileFilter.filter : FileFilter → PackageFileInfo → Bool
  | .pattern r, f => r.is_match f.file_name
  | .filename n, f => f.file_name == n

/-- `make_filter`: pattern wins if present, else exact filename, else panic. -/
def make_filter (pattern : Option Regexp) (filename : Option String) :
    Outcome FileFilter :=
  match pattern with
  | some p => .ok (.pattern p)
  | none =>
    match filename with
    | some f => .ok (.filename f)
    | none => .panicked "Either pattern or filename must be provided"

/-! ## Package endpoints (packages.rs) -/

/-- `packages_get`: GET `/projects/\x7bid\x7d/packages` with query pairs, parse the
body as a package list.  (No status check in the source.) -/
def packages_get (s : Server) (project_id : Nat) (query : List (String × String)) :
    List PackageInfo × List Request :=
  (s.packages project_id query, [.packagesApi project_id "" query])

/-- `package_files_get`: GET `/projects/\x7bid\x7d/packages/\x7bpackage_id\x7d/package_files`
with `order_by` / `sort` added to the query only when non-empty. -/
def package_files_get (s : Server) (project_id package_id : Nat)
    (order_by sort : String) : List PackageFileInfo × List Request :=
  let path := "/" ++ toString package_id ++ "/package_files"
  let query := (if order_by ≠ "" then [("order_by", order_by)] else []) ++
    (if sort ≠ "" then [("sort", sort)] else [])
  (s.packageFiles project_id package_id query, [.packagesApi project_id path query])

/-- Builder state of `ListPackageFiles` (packages.rs lines 492-542). -/
structure ListPackageFiles where
  project_id : Nat
  package_name : String
  package_version : String
  deriving DecidableEq, Repr

/-- `ListPackageFiles::with_project_id`: both name and version start empty. -/
def ListPackageFiles.with_project_id (project_id : Nat) : ListPackageFiles :=
  { project_id := project_id, package_name := "", package_version := "" }

/-- `ListPackageFiles::run`: list packages with the stored (possibly empty)
name/version as query, require a first result (`PackageNotFound` otherwise),
then list that package's files. -/
def ListPackageFiles.run (s : Server) (l : ListPackageFiles)
    (order_by sort : String) : Outcome (List PackageFileInfo) × List Request :=
  let listed := packages_get s l.project_id
    [("package_name", l.package_name), ("package_version", l.package_version)]
  match listed.1.head? with
  | none => (.err "PackageNotFound", listed.2)
  | some pkg =>
    let files := package_files_get s l.project_id pkg.id order_by sort
    (.ok files.1, listed.2 ++ files.2)

/-- Builder state of `PackageAction` (packages.rs lines 216-268). -/
structure PackageAction where
  project_id : Nat
  package_name : String
  deriving DecidableEq, Repr

/-- The raw URL path built by `PackageAction::run`: the base listing URL plus,
when `latest`, the hard-coded ordering suffix. -/
def PackageAction.list_url_path (a : PackageAction) (latest : Bool) : String :=
  let base := "/projects/" ++ toString a.project_id ++ "/packages?package_name="
    ++ a.package_name
  if latest then base ++ "&order_by=created_at&sort=desc&per_page=1" else base

/-- `PackageAction::run`: GET the listing URL; a 404 status is mapped to
`PackageNotFound`; otherwise the parsed body is returned as-is. -/
def PackageAction.run (s : Server) (a : PackageAction) (latest : Bool) :
    Outcome (List PackageInfo) × List Request :=
  let url_path := a.list_url_path latest
  let resp := s.listRun url_path
  (if resp.1 = 404 then .err "PackageNotFound" else .ok resp.2, [.apiGet url_path])

/-- `PackageAction::package_files_by_version`: run `ListPackageFiles` with only
the version set (the action's `package_name` is NOT forwarded into the builder),
then stamp every file with the requested version and the action's name. -/
def PackageAction.package_files_by_version (s : Server) (a : PackageAction)
    (version : String) : Outcome (List PackageFileInfo) × List Request :=
  let l := { ListPackageFiles.with_project_id a.project_id with
    package_version := version }
  match ListPackageFiles.run s l "" "" with
  | (.ok files, t) =>
    (.ok (files.map fun x => { x with
      version := some version
      name := some a.package_name }), t)
  | (.err e, t) => (.err e, t)
  | (.panicked m, t) => (.panicked m, t)

/-- `PackageAction::latest_package_files`: run the `latest` listing, `unwrap`
the first result (a panic when the parsed list is empty), list that package's
files and stamp them with its version and the action's name. -/
def PackageAction.latest_package_files (s : Server) (a : PackageAction) :
    Outcome (List PackageFileInfo) × List Request :=
  match PackageAction.run s a true with
  | (.err e, t) => (.err e, t)
  | (.panicked m, t) => (.panicked m, t)
  | (.ok latest_package, t1) =>
    match latest_package.head? with
    | none => (.panicked "called Option::unwrap on a None value", t1)
    | some p =>
      let files := package_files_get s a.project_id p.id "" ""
      (.ok (files.1.map fun x => { x with
        version := some p.version
        name := some a.package_name }), t1 ++ files.2)

/-- The download URL path for one file:
`/projects/\x7bid\x7d/packages/generic/\x7bname\x7d/\x7bversion\x7d/\x7bfile_name\x7d`. -/
def package_file_url_path (project_id : Nat) (name version file_name : String) :
    String :=
  "/projects/" ++ toString project_id ++ "/packages/generic/" ++ name ++ "/"
    ++ version ++ "/" ++ file_name

/-- `download_file`: GET the url; any non-200 status is an error carrying the
response body; on 200 the bytes are written to the output file. -/
def download_file (s : Server) (url : String) :
    Outcome Unit × List Request :=
  let resp := s.fetch url
  (if resp.status ≠ 200 then .err ("DownloadFileErr: " ++ resp.body) else .ok (),
    [.fetchFile url])

/-- The per-file loop body of `PackageAction::download_files`: skip files the
filter rejects; for survivors, `unwrap` the enriched `name`/`version`, build the
generic-package URL, pick the output path (`output_dir` if it is a directory,
else the `/tmp` fallback), download, and accumulate the written paths in order.
The first failing download aborts the whole loop with its error. -/
def download_loop (s : Server) (a : PackageAction) (output_dir : String)
    (output_dir_is_dir : Bool) (filt : FileFilter) :
    List PackageFileInfo → Outcome (List String) × List Request
  | [] => (.ok [], [])
  | f :: rest =>
    if ¬ filt.filter f then
      download_loop s a output_dir output_dir_is_dir filt rest
    else
      match f.name, f.version with
      | some n, some v =>
        let url := gitlab_api_url (package_file_url_path a.project_id n v f.file_name)
        let output_file := (if output_dir_is_dir then output_dir else "/tmp")
          ++ "/" ++ f.file_name
        (match download_file s url with
         | (.ok _, t) =>
           (match download_loop s a output_dir output_dir_is_dir filt rest with
            | (.ok outs, t2) => (.ok (output_file :: outs), t ++ t2)
            | (.err e, t2) => (.err e, t ++ t2)
            | (.panicked m, t2) => (.panicked m, t ++ t2))
         | (.err e, t) => (.err e, t)
         | (.panicked m, t) => (.panicked m, t))
      | _, _ => (.panicked "called Option::unwrap on a None value", [])

/-- `PackageAction::download_files`: build the filter (panics when neither
pattern nor filename is given), resolve the file list through the latest or
explicit-version path (an error when neither is selected), run the download
loop over it, and on success print `\x7bstatus: "ok", output: written paths\x7d`. -/
def PackageAction.download_files (s : Server) (a : PackageAction)
    (output_dir : String) (output_dir_is_dir : Bool) (pattern : Option Regexp)
    (filename : Option String) (version : Option String) (latest : Option Bool) :
    Outcome PrintOutput × List Request :=
  match make_filter pattern filename with
  | .panicked m => (.panicked m, [])
  | .err e => (.err e, [])
  | .ok filt =>
    let resolved : Outcome (List PackageFileInfo) × List Request :=
      if latest = some true then a.latest_package_files s
      else
        match version with
        | some v => a.package_files_by_version s v
        | none => (.err "Please provide either package version or latest flag", [])
    match resolved with
    | (.err e, t) => (.err e, t)
    | (.panicked m, t) => (.panicked m, t)
    | (.ok package_files, t1) =>
      match download_loop s a output_dir output_dir_is_dir filt package_files with
      | (.ok outputs, t2) =>
        (.ok { status := "ok", output := outputs }, t1 ++ t2)
      | (.err e, t2) => (.err e, t1 ++ t2)
      | (.panicked m, t2) => (.panicked m, t1 ++ t2)

/-- The subset of the file list a selector keeps (the survivors of the loop's
`if !filter.filter(package_file) \x7b continue \x7d`). -/
def select (filt : FileFilter) (files : List PackageFileInfo) :
    List PackageFileInfo :=
  files.filter fun f => filt.filter f

/-! ## Project reference encoding
(src/crates/glabu/src/cli.rs and src/glabu/src/endpoints/projects.rs) -/

/-- Uppercase hexadecimal digit for a value below 16. -/
def hexDigit (n : Nat) : Char :=
  if n < 10 then Char.ofNat (48 + n) else Char.ofNat (55 + n)

/-- One percent-encoded byte: `%XX` with uppercase hex. -/
def byteToHex (b : Nat) : List Char :=
  ['%', hexDigit (b / 16), hexDigit (b % 16)]

/-- The UTF-8 bytes of one character. -/
def utf8Bytes (c : Char) : List Nat :=
  let n := c.toNat
  if n < 128 then [n]
  else if n < 2048 then [192 + n / 64, 128 + n % 64]
  else if n < 65536 then [224 + n / 4096, 128 + (n / 64) % 64, 128 + n % 64]
  else [240 + n / 262144, 128 + (n / 4096) % 64, 128 + (n / 64) % 64, 128 + n % 64]

/-- The characters the `urlencoding` crate leaves as-is: ASCII alphanumerics
and `-`, `_`, `.`, `~`. -/
def isUrlUnreserved (c : Char) : Bool :=
  c.isAlphanum || c = '-' || c = '_' || c = '.' || c = '~'

/-- `urlencoding::encode`: percent-encode every byte of every character outside
the unreserved set. -/
def urlencode (s : String) : String :=
  ((s.toList.map fun c =>
    if isUrlUnreserved c then [c] else ((utf8Bytes c).map byteToHex).flatten).flatten).asString

/-- `encode_project_id` (src/crates/glabu/src/cli.rs): replace each `/` with
`%2F` when the reference contains a `/`; leave everything else alone. -/
def encode_project_id (project : String) : String :=
  if project.contains '/' then
    ((project.toList.map fun c =>
      if c = '/' then ['%', '2', 'F'] else [c]).flatten).asString
  else project

/-- The encoding of the specification's words: "percent-encode exactly the `/`
characters and none else".  Stated from the spec, for comparison with the
source functions. -/
def slash_only_encode (s : String) : String :=
  ((s.toList.map fun c =>
    if c = '/' then ['%', '2', 'F'] else [c]).flatten).asString

/-- The `let id = if id.contains("/") \x7b encode(id) \x7d else \x7b id \x7d` step of
`project_get_by_id` (projects.rs lines 333-337). -/
def project_ref_encoded (id : String) : String :=
  if id.contains '/' then urlencode id else id

/-- `project_get_by_id` (projects.rs lines 332-341): GET
`/projects/\x7bencoded id\x7d` through `projects_get_helper` (which returns the
body bytes without inspecting the status), then JSON-parse the body as a
`Project`.  The deserializer (serde_json, an external library) is an explicit
parameter; its error propagates through `?` as the operation's error. -/
def project_get_by_id (parse : String → Except String Project) (id : String)
    (resp : HttpResponse) : Outcome Project × List Request :=
  let idE := project_ref_encoded id
  ((match parse resp.body with
    | .ok p => .ok p
    | .error e => .err e), [.apiGet ("/projects/" ++ idE)])

/-- Unanchored substring test (used to state facts about built URL strings). -/
def contains_substring (s pat : String) : Bool :=
  s.toList.tails.any fun t => pat.toList.isPrefixOf t

/-! ## Pipeline lemmas -/

/-- The download URL the loop builds for an enriched file (its `name` and
`version` unwrapped). -/
def fileUrl (project_id : Nat) (f : PackageFileInfo) : String :=
  gitlab_api_url
    (package_file_url_path project_id (f.name.getD "") (f.version.getD "") f.file_name)

/-- The local output path the loop picks for a file. -/
def outPath (output_dir : String) (output_dir_is_dir : Bool)
    (f : PackageFileInfo) : String :=
  (if output_dir_is_dir then output_dir else "/tmp") ++ "/" ++ f.file_name

theorem download_loop_skip (s : Server) (a : PackageAction) (dir : String)
    (b : Bool) (filt : FileFilter) (f : PackageFileInfo)
    (rest : List PackageFileInfo) (hf : filt.filter f = false) :
    download_loop s a dir b filt (f :: rest) = download_loop s a dir b filt rest := by
  simp [download_loop, hf]

theorem download_loop_cons_pos (s : Server) (a : PackageAction) (dir : String)
    (b : Bool) (filt : FileFilter) (f : PackageFileInfo)
    (rest : List PackageFileInfo) (hf : filt.filter f = true)
    (n v : String) (hn : f.name = some n) (hv : f.version = some v) :
    download_loop s a dir b filt (f :: rest) =
      if (s.fetch (fileUrl a.project_id f)).status = 200 then
        match download_loop s a dir b filt rest with
        | (.ok outs, t2) => (.ok (outPath dir b f :: outs), .fetchFile (fileUrl a.project_id f) :: t2)
        | (.err e, t2) => (.err e, .fetchFile (fileUrl a.project_id f) :: t2)
        | (.panicked m, t2) => (.panicked m, .fetchFile (fileUrl a.project_id f) :: t2)
      else
        (.err ("DownloadFileErr: " ++ (s.fetch (fileUrl a.project_id f)).body),
          [.fetchFile (fileUrl a.project_id f)]) := by
  have hurl : fileUrl a.project_id f =
      gitlab_api_url (package_file_url_path a.project_id n v f.file_name) := by
    simp [fileUrl, hn, hv]
  rw [hurl]
  simp only [download_loop, hf, hn, hv, download_file, outPath]
  by_cases hst :
      (s.fetch (gitlab_api_url (package_file_url_path a.project_id n v f.file_name))).status = 200
  · rcases hrec : download_loop s a dir b filt rest with ⟨o, t2⟩
    cases o <;> simp [hst, hrec]
  · simp [hst]

theorem download_loop_empty_select (s : Server) (a : PackageAction)
    (dir : String) (b : Bool) (filt : FileFilter) :
    ∀ files, select filt files = [] →
      download_loop s a dir b filt files = (.ok [], []) := by
  intro files
  induction files with
  | nil => intro _; rfl
  | cons f rest ih =>
    intro h
    by_cases hf : filt.filter f = true
    · simp [select, List.filter_cons, hf] at h
    · have hf' : filt.filter f = false := by simpa using hf
      have hsel : select filt rest = [] := by
        simpa [select, List.filter_cons, hf'] using h
      rw [download_loop_skip s a dir b filt f rest hf']
      exact ih hsel

theorem select_cons_pos (filt : FileFilter) (f : PackageFileInfo)
    (rest : List PackageFileInfo) (hf : filt.filter f = true) :
    select filt (f :: rest) = f :: select filt rest := by
  simp [select, List.filter_cons, hf]

theorem select_cons_neg (filt : FileFilter) (f : PackageFileInfo)
    (rest : List PackageFileInfo) (hf : filt.filter f = false) :
    select filt (f :: rest) = select filt rest := by
  simp [select, List.filter_cons, hf]

theorem fileUrl_eq (project_id : Nat) (f : PackageFileInfo) (n v : String)
    (hn : f.name = some n) (hv : f.version = some v) :
    fileUrl project_id f =
      gitlab_api_url (package_file_url_path project_id n v f.file_name) := by
  simp [fileUrl, hn, hv]

theorem download_loop_fetch_mem (s : Server) (a : PackageAction) (dir : String)
    (b : Bool) (filt : FileFilter) :
    ∀ files u, Request.fetchFile u ∈ (download_loop s a dir b filt files).2 →
      ∃ f, f ∈ select filt files ∧ ∃ n v, f.name = some n ∧ f.version = some v ∧
        u = gitlab_api_url (package_file_url_path a.project_id n v f.file_name) := by
  intro files
  induction files with
  | nil => intro u h; simp [download_loop] at h
  | cons f rest ih =>
    intro u h
    by_cases hf : filt.filter f = true
    · rcases hn : f.name with _ | n
      · simp only [download_loop, hf] at h
        simp [hn] at h
      · rcases hv : f.version with _ | v
        · simp only [download_loop, hf] at h
          simp [hn, hv] at h
        · rw [download_loop_cons_pos s a dir b filt f rest hf n v hn hv] at h
          rw [select_cons_pos filt f rest hf]
          by_cases hst : (s.fetch (fileUrl a.project_id f)).status = 200
          · rcases hrec : download_loop s a dir b filt rest with ⟨o, t2⟩
            rw [if_pos hst, hrec] at h
            have hmem : u = fileUrl a.project_id f ∨ Request.fetchFile u ∈ t2 := by
              cases o <;> simpa using h
            rcases hmem with heq | hmem
            · refine ⟨f, List.mem_cons_self f _, n, v, hn, hv, ?_⟩
              rw [heq]
              exact fileUrl_eq a.project_id f n v hn hv
            · obtain ⟨g, hg, n', v', hn', hv', hu⟩ := ih u (by rw [hrec]; exact hmem)
              exact ⟨g, List.mem_cons_of_mem f hg, n', v', hn', hv', hu⟩
          · rw [if_neg hst] at h
            have heq : u = fileUrl a.project_id f := by simpa using h
            refine ⟨f, List.mem_cons_self f _, n, v, hn, hv, ?_⟩
            rw [heq]
            exact fileUrl_eq a.project_id f n v hn hv
    · have hf' : filt.filter f = false := by simpa using hf
      rw [download_loop_skip s a dir b filt f rest hf'] at h
      rw [select_cons_neg filt f rest hf']
      exact ih u h

theorem download_loop_success (s : Server) (a : PackageAction) (dir : String)
    (b : Bool) (filt : FileFilter) :
    ∀ files,
      (∀ g ∈ select filt files, g.name.isSome ∧ g.version.isSome ∧
        (s.fetch (fileUrl a.project_id g)).status = 200) →
      download_loop s a dir b filt files =
        (.ok ((select filt files).map (outPath dir b)),
         (select filt files).map fun g => .fetchFile (fileUrl a.project_id g)) := by
  intro files
  induction files with
  | nil => intro _; rfl
  | cons f rest ih =>
    intro hall
    by_cases hf : filt.filter f = true
    · rw [select_cons_pos filt f rest hf] at hall ⊢
      obtain ⟨hn_so, hv_so, hst⟩ := hall f (List.mem_cons_self f _)
      obtain ⟨n, hn⟩ := Option.isSome_iff_exists.mp hn_so
      obtain ⟨v, hv⟩ := Option.isSome_iff_exists.mp hv_so
      rw [download_loop_cons_pos s a dir b filt f rest hf n v hn hv, if_pos hst]
      rw [ih fun g hg => hall g (List.mem_cons_of_mem f hg)]
      simp
    · have hf' : filt.filter f = false := by simpa using hf
      rw [select_cons_neg filt f rest hf'] at hall ⊢
      rw [download_loop_skip s a dir b filt f rest hf']
      exact ih hall

theorem download_loop_aborts (s : Server) (a : PackageAction) (dir : String)
    (b : Bool) (filt : FileFilter) :
    ∀ files pre f post,
      select filt files = pre ++ f :: post →
      (∀ g ∈ select filt files, g.name.isSome ∧ g.version.isSome) →
      (∀ g ∈ pre, (s.fetch (fileUrl a.project_id g)).status = 200) →
      (s.fetch (fileUrl a.project_id f)).status ≠ 200 →
      download_loop s a dir b filt files =
        (.err ("DownloadFileErr: " ++ (s.fetch (fileUrl a.project_id f)).body),
         pre.map (fun g => .fetchFile (fileUrl a.project_id g)) ++
           [.fetchFile (fileUrl a.project_id f)]) := by
  intro files
  induction files with
  | nil =>
    intro pre f post hsel _ _ _
    rw [show select filt [] = [] from rfl] at hsel
    exact absurd hsel.symm (List.append_ne_nil_of_right_ne_nil pre (List.cons_ne_nil f post))
  | cons g0 rest ih =>
    intro pre f post hsel hsome h200 hfail
    by_cases hf : filt.filter g0 = true
    · rw [select_cons_pos filt g0 rest hf] at hsel hsome
      cases pre with
      | nil =>
        simp only [List.nil_append, List.cons.injEq] at hsel
        obtain ⟨hg0, hrest⟩ := hsel
        subst hg0
        obtain ⟨hn_so, hv_so⟩ := hsome g0 (List.mem_cons_self g0 _)
        obtain ⟨n, hn⟩ := Option.isSome_iff_exists.mp hn_so
        obtain ⟨v, hv⟩ := Option.isSome_iff_exists.mp hv_so
        rw [download_loop_cons_pos s a dir b filt g0 rest hf n v hn hv, if_neg hfail]
        simp
      | cons p pre' =>
        simp only [List.cons_append, List.cons.injEq] at hsel
        obtain ⟨hg0, hrest⟩ := hsel
        subst hg0
        obtain ⟨hn_so, hv_so⟩ := hsome g0 (List.mem_cons_self g0 _)
        obtain ⟨n, hn⟩ := Option.isSome_iff_exists.mp hn_so
        obtain ⟨v, hv⟩ := Option.isSome_iff_exists.mp hv_so
        have hst : (s.fetch (fileUrl a.project_id g0)).status = 200 :=
          h200 g0 (List.mem_cons_self g0 _)
        rw [download_loop_cons_pos s a dir b filt g0 rest hf n v hn hv, if_pos hst]
        rw [ih pre' f post hrest (fun g hg => hsome g (List.mem_cons_of_mem g0 hg))
          (fun g hg => h200 g (List.mem_cons_of_mem g0 hg)) hfail]
        simp
    · have hf' : filt.filter g0 = false := by simpa using hf
      rw [select_cons_neg filt g0 rest hf'] at hsel hsome
      rw [download_loop_skip s a dir b filt g0 rest hf']
      exact ih pre f post hsel hsome h200 hfail

/-- The query pair list `ListPackageFiles::run` sends when invoked from
`package_files_by_version`: the name slot carries the builder's (empty)
`package_name`, not the `PackageAction`'s. -/
def by_version_query (v : String) : List (String × String) :=
  [("package_name", ""), ("package_version", v)]

theorem package_files_by_version_eq (s : Server) (a : PackageAction) (v : String) :
    a.package_files_by_version s v =
      match (s.packages a.project_id (by_version_query v)).head? with
      | none =>
        (.err "PackageNotFound", [.packagesApi a.project_id "" (by_version_query v)])
      | some pkg =>
        (.ok ((s.packageFiles a.project_id pkg.id []).map fun x => { x with
           version := some v
           name := some a.package_name }),
         [.packagesApi a.project_id "" (by_version_query v),
          .packagesApi a.project_id ("/" ++ toString pkg.id ++ "/package_files") []]) := by
  cases h : (s.packages a.project_id (by_version_query v)).head? with
  | none =>
    simp only [PackageAction.package_files_by_version, ListPackageFiles.run,
      packages_get, ListPackageFiles.with_project_id, by_version_query] at h ⊢
    rw [h]
  | some pkg =>
    simp only [PackageAction.package_files_by_version, ListPackageFiles.run,
      packages_get, package_files_get, ListPackageFiles.with_project_id,
      by_version_query] at h ⊢
    rw [h]
    simp

theorem latest_package_files_eq (s : Server) (a : PackageAction) :
    a.latest_package_files s =
      if (s.listRun (a.list_url_path true)).1 = 404 then
        (.err "PackageNotFound", [.apiGet (a.list_url_path true)])
      else
        match (s.listRun (a.list_url_path true)).2.head? with
        | none =>
          (.panicked "called Option::unwrap on a None value",
           [.apiGet (a.list_url_path true)])
        | some p =>
          (.ok ((s.packageFiles a.project_id p.id []).map fun x => { x with
             version := some p.version
             name := some a.package_name }),
           [.apiGet (a.list_url_path true),
            .packagesApi a.project_id ("/" ++ toString p.id ++ "/package_files") []]) := by
  by_cases h404 : (s.listRun (a.list_url_path true)).1 = 404
  · simp [PackageAction.latest_package_files, PackageAction.run, h404]
  · cases h : (s.listRun (a.list_url_path true)).2.head? with
    | none =>
      simp [PackageAction.latest_package_files, PackageAction.run, h404, h]
    | some p =>
      simp [PackageAction.latest_package_files, PackageAction.run, h404, h,
        package_files_get]

/-! ## Concrete fixtures used by witnesses and counterexamples -/

/-- A package whose name differs from the one the fixtures' action requests. -/
def pkg_other : PackageInfo :=
  { id := 7
    name := "other"
    version := "1.0"
    tags := []
    created_at := none
    last_downloaded_at := none
    package_type := none
    status := none }

/-- A package file as the remote returns it: `version` and `name` absent. -/
def raw_file : PackageFileInfo :=
  { id := 11
    package_id := 7
    created_at := "2024-01-01"
    file_name := "demo-linux.tgz"
    size := none
    file_md5 := none
    file_sha1 := none
    file_sha256 := none
    version := none
    name := none }

/-- An action requesting package "pack1" in project 1. -/
def act1 : PackageAction := { project_id := 1, package_name := "pack1" }

/-- A server holding exactly one package (`pkg_other`) with one file; every
download succeeds. -/
def srv1 : Server :=
  { packages := fun _ _ => [pkg_other]
    packageFiles := fun _ _ _ => [raw_file]
    listRun := fun _ => (200, [pkg_other])
    fetch := fun _ => { status := 200, body := "" } }

/-- A server with no packages at all (listing responds 200 with an empty
list). -/
def srv_empty : Server :=
  { packages := fun _ _ => []
    packageFiles := fun _ _ _ => []
    listRun := fun _ => (200, [])
    fetch := fun _ => { status := 200, body := "" } }

/-! ## C1: enrichment invariant -/

/-- C1 (amended): every `PackageFileInfo` returned by the two lister paths has
non-absent `version` and `name`, but `name` is stamped with the requested
`PackageAction.package_name`, not the owning package's own `name`; `version`
is the requested version in the explicit path and the resolved first package's
version in the latest path. -/
theorem c1_enrichment_theorem :
    (∀ (s : Server) (a : PackageAction) (v : String) files t,
       a.package_files_by_version s v = (.ok files, t) →
       ∀ f ∈ files, f.version = some v ∧ f.name = some a.package_name) ∧
    (∀ (s : Server) (a : PackageAction) files t,
       a.latest_package_files s = (.ok files, t) →
       ∃ p, (s.listRun (a.list_url_path true)).2.head? = some p ∧
         ∀ f ∈ files, f.version = some p.version ∧ f.name = some a.package_name) := by
  constructor
  · intro s a v files t h f hf
    rw [package_files_by_version_eq] at h
    cases hh : (s.packages a.project_id (by_version_query v)).head? with
    | none => rw [hh] at h; simp at h
    | some pkg =>
      rw [hh] at h
      simp only [Prod.mk.injEq, Outcome.ok.injEq] at h
      obtain ⟨hfiles, -⟩ := h
      rw [← hfiles] at hf
      obtain ⟨x, hx, rfl⟩ := List.mem_map.mp hf
      exact ⟨rfl, rfl⟩
  · intro s a files t h
    rw [latest_package_files_eq] at h
    by_cases h404 : (s.listRun (a.list_url_path true)).1 = 404
    · rw [if_pos h404] at h; simp at h
    · rw [if_neg h404] at h
      cases hh : (s.listRun (a.list_url_path true)).2.head? with
      | none => rw [hh] at h; simp at h
      | some p =>
        rw [hh] at h
        simp only [Prod.mk.injEq, Outcome.ok.injEq] at h
        obtain ⟨hfiles, -⟩ := h
        refine ⟨p, rfl, ?_⟩
        intro f hf
        rw [← hfiles] at hf
        obtain ⟨x, hx, rfl⟩ := List.mem_map.mp hf
        exact ⟨rfl, rfl⟩

/-- C1 (witness): on the concrete fixture server, the file returned by the
explicit-version path carries `version = some "1.0"` and
`name = some "pack1"`. -/
theorem c1_witness :
    ({ raw_file with version := some "1.0", name := some "pack1" }
      : PackageFileInfo).version = some "1.0" ∧
    ({ raw_file with version := some "1.0", name := some "pack1" }
      : PackageFileInfo).name = some act1.package_name :=
  c1_enrichment_theorem.1 srv1 act1 "1.0"
    [{ raw_file with version := some "1.0", name := some "pack1" }]
    [.packagesApi 1 "" (by_version_query "1.0"),
     .packagesApi 1 "/7/package_files" []]
    rfl
    { raw_file with version := some "1.0", name := some "pack1" }
    (List.mem_singleton_self _)

/-- C1 (counterexample): requesting files of "pack1" version "1.0" against a
server whose only matching package is named "other" returns a file stamped
`name = some "pack1"`, which differs from the owning package's name
("other") — the claim's "name equal to the owning package's name" fails. -/
theorem c1_counterexample :
    act1.package_files_by_version srv1 "1.0" =
      (.ok [{ raw_file with version := some "1.0", name := some "pack1" }],
       [.packagesApi 1 "" (by_version_query "1.0"),
        .packagesApi 1 "/7/package_files" []]) ∧
    srv1.packages 1 (by_version_query "1.0") = [pkg_other] ∧
    pkg_other.name = "other" ∧
    (({ raw_file with version := some "1.0", name := some "pack1" }
       : PackageFileInfo).name == some pkg_other.name) = false := by
  refine ⟨rfl, rfl, rfl, by decide⟩

/-! ## C2: explicit-version query and PackageNotFound -/

/-- C2 (amended): the explicit-version path always sends the package listing
query with `package_version = v` but `package_name = ""` (the requested name
is not forwarded), and an empty listing fails with `PackageNotFound` with no
package-file request ever issued. -/
theorem c2_version_query_theorem :
    ∀ (s : Server) (a : PackageAction) (v : String),
      (a.package_files_by_version s v).2.head? =
        some (.packagesApi a.project_id "" (by_version_query v)) ∧
      (s.packages a.project_id (by_version_query v) = [] →
        a.package_files_by_version s v =
          (.err "PackageNotFound",
           [.packagesApi a.project_id "" (by_version_query v)])) := by
  intro s a v
  constructor
  · rw [package_files_by_version_eq]
    cases hh : (s.packages a.project_id (by_version_query v)).head? <;> simp [hh]
  · intro hempty
    rw [package_files_by_version_eq, hempty]
    rfl

/-- C2 (witness): against the empty server the explicit-version path fails
with `PackageNotFound` after the single listing request. -/
theorem c2_witness :
    act1.package_files_by_version srv_empty "1.0" =
      (.err "PackageNotFound", [.packagesApi 1 "" (by_version_query "1.0")]) :=
  (c2_version_query_theorem srv_empty act1 "1.0").2 rfl

/-- C2 (counterexample): the action requests name "pack1", but the listing
query sent carries `package_name = ""`, not `"pack1"` — the claim's "query is
built with packageName set to n" fails. -/
theorem c2_counterexample :
    act1.package_name = "pack1" ∧
    (act1.package_files_by_version srv1 "1.0").2 =
      [.packagesApi 1 "" [("package_name", ""), ("package_version", "1.0")],
       .packagesApi 1 "/7/package_files" []] ∧
    (("" : String) == "pack1") = false := by
  refine ⟨rfl, rfl, by decide⟩

/-! ## C3: latest-version resolution -/

/-- C3 (amended): the latest-path listing URL carries `package_name`,
`order_by=created_at`, `sort=desc` and `per_page=1` (and nothing else — in
particular no `page=1` parameter); a 404 status yields `PackageNotFound`, but
a non-404 response with an empty package list makes `latest_package_files`
panic on `unwrap` instead of failing with `PackageNotFound`. -/
theorem c3_latest_resolution_theorem :
    ∀ (s : Server) (a : PackageAction),
      a.list_url_path true =
        "/projects/" ++ toString a.project_id ++ "/packages?package_name="
          ++ a.package_name ++ "&order_by=created_at&sort=desc&per_page=1" ∧
      ((s.listRun (a.list_url_path true)).1 = 404 →
        a.latest_package_files s =
          (.err "PackageNotFound", [.apiGet (a.list_url_path true)])) ∧
      ((s.listRun (a.list_url_path true)).1 ≠ 404 →
        (s.listRun (a.list_url_path true)).2 = [] →
        a.latest_package_files s =
          (.panicked "called Option::unwrap on a None value",
           [.apiGet (a.list_url_path true)])) := by
  intro s a
  refine ⟨rfl, ?_, ?_⟩
  · intro h404
    rw [latest_package_files_eq, if_pos h404]
  · intro h404 hnil
    rw [latest_package_files_eq, if_neg h404, hnil]
    rfl

/-- C3 (witness): against the empty server (status 200, zero packages) the
latest path panics. -/
theorem c3_witness :
    act1.latest_package_files srv_empty =
      (.panicked "called Option::unwrap on a None value",
       [.apiGet (act1.list_url_path true)]) :=
  (c3_latest_resolution_theorem srv_empty act1).2.2 (by decide) rfl

/-- C3 (counterexample): the latest-path URL contains no `page=` parameter,
and when no packages exist (200 with an empty list) the operation panics
rather than failing with `PackageNotFound` — both parts of the claim fail. -/
theorem c3_counterexample :
    act1.list_url_path true =
      "/projects/1/packages?package_name=pack1&order_by=created_at&sort=desc&per_page=1" ∧
    contains_substring (act1.list_url_path true) "&page=" = false ∧
    contains_substring (act1.list_url_path true) "?page=" = false ∧
    act1.latest_package_files srv_empty =
      (.panicked "called Option::unwrap on a None value",
       [.apiGet (act1.list_url_path true)]) ∧
    ((act1.latest_package_files srv_empty).1 == .err "PackageNotFound") = false := by
  exact ⟨by decide, by decide, by decide, rfl, by decide⟩

/-! ## C4: selector semantics -/

/-- C4: `select` with `ExactName(n)` keeps exactly the files whose `file_name`
equals `n`, and `select` with `Pattern(r)` keeps exactly the files whose
`file_name` contains a substring matched by `r` (unanchored search, not a
full match). -/
theorem c4_select_theorem :
    ∀ (files : List PackageFileInfo) (n : String) (r : Regexp),
      (∀ f, f ∈ select (.filename n) files ↔ f ∈ files ∧ f.file_name = n) ∧
      (∀ f, f ∈ select (.pattern r) files ↔ f ∈ files ∧
        ∃ pre mid post, f.file_name.toList = pre ++ mid ++ post ∧ RMatch r mid) := by
  intro files n r
  constructor
  · intro f
    simp [select, List.mem_filter, FileFilter.filter]
  · intro f
    simp only [select, List.mem_filter, FileFilter.filter]
    exact and_congr_right fun _ => Regexp.is_match_iff r f.file_name

theorem download_files_latest_ok (s : Server) (a : PackageAction) (dir : String)
    (b : Bool) (pat : Option Regexp) (fn : Option String) (ver : Option String)
    (filt : FileFilter) (files : List PackageFileInfo) (t1 : List Request)
    (hmk : make_filter pat fn = .ok filt)
    (hok : a.latest_package_files s = (.ok files, t1)) :
    a.download_files s dir b pat fn ver (some true) =
      match download_loop s a dir b filt files with
      | (.ok outputs, t2) => (.ok { status := "ok", output := outputs }, t1 ++ t2)
      | (.err e, t2) => (.err e, t1 ++ t2)
      | (.panicked m, t2) => (.panicked m, t1 ++ t2) := by
  simp [PackageAction.download_files, hmk, hok]

theorem download_files_version_ok (s : Server) (a : PackageAction) (dir : String)
    (b : Bool) (pat : Option Regexp) (fn : Option String) (v : String)
    (lat : Option Bool) (filt : FileFilter) (files : List PackageFileInfo)
    (t1 : List Request)
    (hmk : make_filter pat fn = .ok filt)
    (hlat : lat ≠ some true)
    (hok : a.package_files_by_version s v = (.ok files, t1)) :
    a.download_files s dir b pat fn (some v) lat =
      match download_loop s a dir b filt files with
      | (.ok outputs, t2) => (.ok { status := "ok", output := outputs }, t1 ++ t2)
      | (.err e, t2) => (.err e, t1 ++ t2)
      | (.panicked m, t2) => (.panicked m, t1 ++ t2) := by
  simp [PackageAction.download_files, hmk, if_neg hlat, hok]

/-! ## C7: zero matching files is a success -/

/-- C7: when the resolved file list has no file accepted by the selector, the
download pipeline issues no download and returns the success output
`\x7bstatus: "ok", output: []\x7d`, not an error. -/
theorem c7_empty_match_theorem :
    ∀ (s : Server) (a : PackageAction) (dir : String) (b : Bool)
      (pat : Option Regexp) (fn : Option String) (ver : Option String)
      (lat : Option Bool) (filt : FileFilter) (files : List PackageFileInfo)
      (t1 : List Request),
      make_filter pat fn = .ok filt →
      ((lat = some true ∧ a.latest_package_files s = (.ok files, t1)) ∨
       (lat ≠ some true ∧ ∃ v, ver = some v ∧
         a.package_files_by_version s v = (.ok files, t1))) →
      select filt files = [] →
      a.download_files s dir b pat fn ver lat =
        (.ok { status := "ok", output := [] }, t1) := by
  intro s a dir b pat fn ver lat filt files t1 hmk hres hsel
  rcases hres with ⟨hlat, hok⟩ | ⟨hlat, v, hver, hok⟩
  · subst hlat
    rw [download_files_latest_ok s a dir b pat fn ver filt files t1 hmk hok,
      download_loop_empty_select s a dir b filt files hsel]
    simp
  · subst hver
    rw [download_files_version_ok s a dir b pat fn v lat filt files t1 hmk hlat hok,
      download_loop_empty_select s a dir b filt files hsel]
    simp

/-- C7 (witness): on the fixture server, requesting exact file name "nope"
(which no file carries) for version "1.0" succeeds with an empty output
list. -/
theorem c7_witness :
    act1.download_files srv1 "/out" true none (some "nope") (some "1.0") none =
      (.ok { status := "ok", output := [] },
       [.packagesApi 1 "" (by_version_query "1.0"),
        .packagesApi 1 "/7/package_files" []]) :=
  c7_empty_match_theorem srv1 act1 "/out" true none (some "nope") (some "1.0") none
    (.filename "nope")
    [{ raw_file with version := some "1.0", name := some "pack1" }]
    [.packagesApi 1 "" (by_version_query "1.0"),
     .packagesApi 1 "/7/package_files" []]
    rfl
    (Or.inr ⟨by decide, "1.0", rfl, rfl⟩)
    rfl

theorem latest_trace_no_fetch (s : Server) (a : PackageAction) (u : String) :
    Request.fetchFile u ∉ (a.latest_package_files s).2 := by
  rw [latest_package_files_eq]
  by_cases h404 : (s.listRun (a.list_url_path true)).1 = 404
  · rw [if_pos h404]; simp
  · rw [if_neg h404]
    cases hh : (s.listRun (a.list_url_path true)).2.head? with
    | none => simp
    | some p => simp

theorem by_version_trace_no_fetch (s : Server) (a : PackageAction)
    (v : String) (u : String) :
    Request.fetchFile u ∉ (a.package_files_by_version s v).2 := by
  rw [package_files_by_version_eq]
  cases hh : (s.packages a.project_id (by_version_query v)).head? with
  | none => simp
  | some pkg => simp

theorem by_version_ok_names (s : Server) (a : PackageAction) (v : String)
    (files : List PackageFileInfo) (t : List Request)
    (h : a.package_files_by_version s v = (.ok files, t)) :
    ∀ f ∈ files, f.name = some a.package_name ∧ f.version = some v := by
  rw [package_files_by_version_eq] at h
  cases hh : (s.packages a.project_id (by_version_query v)).head? with
  | none => rw [hh] at h; simp at h
  | some pkg =>
    rw [hh] at h
    simp only [Prod.mk.injEq, Outcome.ok.injEq] at h
    obtain ⟨hfiles, -⟩ := h
    intro f hf
    rw [← hfiles] at hf
    obtain ⟨x, hx, rfl⟩ := List.mem_map.mp hf
    exact ⟨rfl, rfl⟩

theorem latest_ok_names (s : Server) (a : PackageAction)
    (files : List PackageFileInfo) (t : List Request)
    (h : a.latest_package_files s = (.ok files, t)) :
    ∀ f ∈ files, f.name = some a.package_name ∧ f.version.isSome := by
  rw [latest_package_files_eq] at h
  by_cases h404 : (s.listRun (a.list_url_path true)).1 = 404
  · rw [if_pos h404] at h; simp at h
  · rw [if_neg h404] at h
    cases hh : (s.listRun (a.list_url_path true)).2.head? with
    | none => rw [hh] at h; simp at h
    | some p =>
      rw [hh] at h
      simp only [Prod.mk.injEq, Outcome.ok.injEq] at h
      obtain ⟨hfiles, -⟩ := h
      intro f hf
      rw [← hfiles] at hf
      obtain ⟨x, hx, rfl⟩ := List.mem_map.mp hf
      exact ⟨rfl, rfl⟩

theorem download_files_latest_err (s : Server) (a : PackageAction) (dir : String)
    (b : Bool) (pat : Option Regexp) (fn : Option String) (ver : Option String)
    (filt : FileFilter) (e : String) (t1 : List Request)
    (hmk : make_filter pat fn = .ok filt)
    (h : a.latest_package_files s = (.err e, t1)) :
    a.download_files s dir b pat fn ver (some true) = (.err e, t1) := by
  simp [PackageAction.download_files, hmk, h]

theorem download_files_latest_panic (s : Server) (a : PackageAction) (dir : String)
    (b : Bool) (pat : Option Regexp) (fn : Option String) (ver : Option String)
    (filt : FileFilter) (m : String) (t1 : List Request)
    (hmk : make_filter pat fn = .ok filt)
    (h : a.latest_package_files s = (.panicked m, t1)) :
    a.download_files s dir b pat fn ver (some true) = (.panicked m, t1) := by
  simp [PackageAction.download_files, hmk, h]

theorem download_files_version_err (s : Server) (a : PackageAction) (dir : String)
    (b : Bool) (pat : Option Regexp) (fn : Option String) (v : String)
    (lat : Option Bool) (filt : FileFilter) (e : String) (t1 : List Request)
    (hmk : make_filter pat fn = .ok filt)
    (hlat : lat ≠ some true)
    (h : a.package_files_by_version s v = (.err e, t1)) :
    a.download_files s dir b pat fn (some v) lat = (.err e, t1) := by
  simp [PackageAction.download_files, hmk, if_neg hlat, h]

theorem download_files_version_panic (s : Server) (a : PackageAction) (dir : String)
    (b : Bool) (pat : Option Regexp) (fn : Option String) (v : String)
    (lat : Option Bool) (filt : FileFilter) (m : String) (t1 : List Request)
    (hmk : make_filter pat fn = .ok filt)
    (hlat : lat ≠ some true)
    (h : a.package_files_by_version s v = (.panicked m, t1)) :
    a.download_files s dir b pat fn (some v) lat = (.panicked m, t1) := by
  simp [PackageAction.download_files, hmk, if_neg hlat, h]

/-! ## C5: download URL construction -/

/-- C5: every file-download request the pipeline issues targets
`gitlab_api_url` of `/projects/\x7bid\x7d/packages/generic/\x7bname\x7d/\x7bversion\x7d/\x7bfileName\x7d`
where `name`/`version` are the enriched (non-absent) fields of a file accepted
by the selector — and the enriched name is the requested package name. -/
theorem c5_url_theorem :
    ∀ (s : Server) (a : PackageAction) (dir : String) (b : Bool)
      (pat : Option Regexp) (fn : Option String) (ver : Option String)
      (lat : Option Bool) (u : String),
      Request.fetchFile u ∈ (a.download_files s dir b pat fn ver lat).2 →
      ∃ filt f n v, make_filter pat fn = .ok filt ∧ filt.filter f = true ∧
        f.name = some n ∧ f.version = some v ∧ n = a.package_name ∧
        u = gitlab_api_url (package_file_url_path a.project_id n v f.file_name) := by
  intro s a dir b pat fn ver lat u hu
  cases hmk : make_filter pat fn with
  | err e => simp [PackageAction.download_files, hmk] at hu
  | panicked m => simp [PackageAction.download_files, hmk] at hu
  | ok filt =>
    by_cases hlat : lat = some true
    · subst hlat
      rcases hres : a.latest_package_files s with ⟨o, t1⟩
      cases o with
      | err e =>
        rw [download_files_latest_err s a dir b pat fn ver filt e t1 hmk hres] at hu
        have := latest_trace_no_fetch s a u
        rw [hres] at this
        exact absurd hu this
      | panicked m =>
        rw [download_files_latest_panic s a dir b pat fn ver filt m t1 hmk hres] at hu
        have := latest_trace_no_fetch s a u
        rw [hres] at this
        exact absurd hu this
      | ok files =>
        rw [download_files_latest_ok s a dir b pat fn ver filt files t1 hmk hres] at hu
        rcases hloop : download_loop s a dir b filt files with ⟨o2, t2⟩
        rw [hloop] at hu
        have hu2 : Request.fetchFile u ∈ t1 ++ t2 := by cases o2 <;> simpa using hu
        rcases List.mem_append.mp hu2 with h1 | h2
        · have := latest_trace_no_fetch s a u
          rw [hres] at this
          exact absurd h1 this
        · obtain ⟨f, hfsel, n, v, hn, hv, hurl⟩ :=
            download_loop_fetch_mem s a dir b filt files u (by rw [hloop]; exact h2)
          have hmem := (List.mem_filter.mp hfsel).1
          have hflt : filt.filter f = true := by
            simpa using (List.mem_filter.mp hfsel).2
          have hname := (latest_ok_names s a files t1 hres f hmem).1
          have hnn : n = a.package_name := by
            rw [hn] at hname
            exact Option.some.inj hname
          exact ⟨filt, f, n, v, rfl, hflt, hn, hv, hnn, hurl⟩
    · cases hver : ver with
      | none =>
        subst hver
        simp [PackageAction.download_files, hmk, if_neg hlat] at hu
      | some v =>
        subst hver
        rcases hres : a.package_files_by_version s v with ⟨o, t1⟩
        cases o with
        | err e =>
          rw [download_files_version_err s a dir b pat fn v lat filt e t1 hmk hlat hres] at hu
          have := by_version_trace_no_fetch s a v u
          rw [hres] at this
          exact absurd hu this
        | panicked m =>
          rw [download_files_version_panic s a dir b pat fn v lat filt m t1 hmk hlat hres] at hu
          have := by_version_trace_no_fetch s a v u
          rw [hres] at this
          exact absurd hu this
        | ok files =>
          rw [download_files_version_ok s a dir b pat fn v lat filt files t1 hmk hlat hres] at hu
          rcases hloop : download_loop s a dir b filt files with ⟨o2, t2⟩
          rw [hloop] at hu
          have hu2 : Request.fetchFile u ∈ t1 ++ t2 := by cases o2 <;> simpa using hu
          rcases List.mem_append.mp hu2 with h1 | h2
          · have := by_version_trace_no_fetch s a v u
            rw [hres] at this
            exact absurd h1 this
          · obtain ⟨f, hfsel, n, v', hn, hv, hurl⟩ :=
              download_loop_fetch_mem s a dir b filt files u (by rw [hloop]; exact h2)
            have hmem := (List.mem_filter.mp hfsel).1
            have hflt : filt.filter f = true := by
              simpa using (List.mem_filter.mp hfsel).2
            have hname := (by_version_ok_names s a v files t1 hres f hmem).1
            have hnn : n = a.package_name := by
              rw [hn] at hname
              exact Option.some.inj hname
            exact ⟨filt, f, n, v', rfl, hflt, hn, hv, hnn, hurl⟩

/-- The compiled pattern `linux` (a literal five-character regex). -/
def re_linux : Regexp :=
  .concat (.char 'l') (.concat (.char 'i') (.concat (.char 'n')
    (.concat (.char 'u') (.char 'x'))))

/-- C5 (witness): on the fixture server, requesting pattern `linux` for
version "1.0" fetches exactly the URL built from the enriched fields
(`name = "pack1"`, `version = "1.0"`). -/
theorem c5_witness :
    ∃ filt f n v, make_filter (some re_linux) none = .ok filt ∧
      filt.filter f = true ∧ f.name = some n ∧ f.version = some v ∧
      n = act1.package_name ∧
      "https://gitlab.com/api/v4/projects/1/packages/generic/pack1/1.0/demo-linux.tgz"
        = gitlab_api_url (package_file_url_path act1.project_id n v f.file_name) :=
  c5_url_theorem srv1 act1 "/out" true (some re_linux) none (some "1.0") none
    "https://gitlab.com/api/v4/projects/1/packages/generic/pack1/1.0/demo-linux.tgz"
    (by decide)

/-! ## C6: first failing download aborts the whole batch -/

/-- A fixture server identical to `srv1` except every download responds 500
with body "server error". -/
def srv_fail : Server :=
  { packages := fun _ _ => [pkg_other]
    packageFiles := fun _ _ _ => [raw_file]
    listRun := fun _ => (200, [pkg_other])
    fetch := fun _ => { status := 500, body := "server error" } }

/-- C6: in either resolution path (explicit version or latest), if the
selector keeps `pre ++ f :: post` and every download before `f` succeeds while
`f`'s returns a non-200 status, the whole pipeline returns the
`DownloadFileErr` error carrying that response body; the requests stop at `f`
(none of `post` is fetched) and no success output is produced. -/
theorem c6_abort_theorem :
    ∀ (s : Server) (a : PackageAction) (dir : String) (b : Bool)
      (pat : Option Regexp) (fn : Option String) (ver : Option String)
      (lat : Option Bool) (filt : FileFilter) (files : List PackageFileInfo)
      (t1 : List Request) (pre : List PackageFileInfo) (f : PackageFileInfo)
      (post : List PackageFileInfo),
      make_filter pat fn = .ok filt →
      ((lat = some true ∧ a.latest_package_files s = (.ok files, t1)) ∨
       (lat ≠ some true ∧ ∃ v, ver = some v ∧
         a.package_files_by_version s v = (.ok files, t1))) →
      select filt files = pre ++ f :: post →
      (∀ g ∈ pre, (s.fetch (fileUrl a.project_id g)).status = 200) →
      (s.fetch (fileUrl a.project_id f)).status ≠ 200 →
      a.download_files s dir b pat fn ver lat =
        (.err ("DownloadFileErr: " ++ (s.fetch (fileUrl a.project_id f)).body),
         t1 ++ (pre.map fun g => .fetchFile (fileUrl a.project_id g)) ++
           [.fetchFile (fileUrl a.project_id f)]) := by
  intro s a dir b pat fn ver lat filt files t1 pre f post hmk hres hsel h200 hfail
  rcases hres with ⟨hlat, hok⟩ | ⟨hlat, v, hver, hok⟩
  · subst hlat
    have hsome : ∀ g ∈ select filt files, g.name.isSome ∧ g.version.isSome := by
      intro g hg
      have hmem := (List.mem_filter.mp hg).1
      obtain ⟨hn, hv⟩ := latest_ok_names s a files t1 hok g hmem
      exact ⟨by simp [hn], hv⟩
    rw [download_files_latest_ok s a dir b pat fn ver filt files t1 hmk hok]
    rw [download_loop_aborts s a dir b filt files pre f post hsel hsome h200 hfail]
    simp [List.append_assoc]
  · subst hver
    have hsome : ∀ g ∈ select filt files, g.name.isSome ∧ g.version.isSome := by
      intro g hg
      have hmem := (List.mem_filter.mp hg).1
      obtain ⟨hn, hv⟩ := by_version_ok_names s a v files t1 hok g hmem
      exact ⟨by simp [hn], by simp [hv]⟩
    rw [download_files_version_ok s a dir b pat fn v lat filt files t1 hmk hlat hok]
    rw [download_loop_aborts s a dir b filt files pre f post hsel hsome h200 hfail]
    simp [List.append_assoc]

/-- C6 (witness): on the failing fixture server, a latest-path batch's single
selected file download returns status 500 and the pipeline aborts with the
response body as error text, reporting no outputs. -/
theorem c6_witness :
    act1.download_files srv_fail "/out" true none (some "demo-linux.tgz")
        none (some true) =
      (.err ("DownloadFileErr: " ++ "server error"),
       [.apiGet (act1.list_url_path true),
        .packagesApi 1 "/7/package_files" [],
        .fetchFile (fileUrl 1 { raw_file with
          version := some "1.0"
          name := some "pack1" })]) :=
  c6_abort_theorem srv_fail act1 "/out" true none (some "demo-linux.tgz")
    none (some true)
    (.filename "demo-linux.tgz")
    [{ raw_file with version := some "1.0", name := some "pack1" }]
    [.apiGet (act1.list_url_path true),
     .packagesApi 1 "/7/package_files" []]
    [] { raw_file with version := some "1.0", name := some "pack1" } []
    rfl (Or.inl ⟨rfl, rfl⟩) rfl
    (fun g hg => absurd hg (List.not_mem_nil g)) (by decide)

/-! ## C8: project reference encoding -/

theorem urlencode_data_eq (l : List Char)
    (h : ∀ c ∈ l, isUrlUnreserved c = true ∨ c = '/') :
    (l.map fun c => if isUrlUnreserved c then [c]
      else ((utf8Bytes c).map byteToHex).flatten).flatten =
    (l.map fun c => if c = '/' then ['%', '2', 'F'] else [c]).flatten := by
  induction l with
  | nil => rfl
  | cons c l ih =>
    simp only [List.map_cons, List.flatten_cons]
    rw [ih fun d hd => h d (List.mem_cons_of_mem c hd)]
    congr 1
    rcases h c (List.mem_cons_self c l) with hc | hc
    · have hslash : c ≠ '/' := by
        intro contra
        subst contra
        exact absurd hc (by decide)
      rw [if_pos hc, if_neg hslash]
    · subst hc
      rw [if_neg (by decide), if_pos rfl]
      decide

theorem slash_free_map_id (l : List Char) (h : '/' ∉ l) :
    (l.map fun c => if c = '/' then ['%', '2', 'F'] else [c]).flatten = l := by
  induction l with
  | nil => rfl
  | cons c l ih =>
    simp only [List.map_cons, List.flatten_cons]
    rw [if_neg fun hc => h (by rw [← hc]; exact List.mem_cons_self c l),
      ih fun hc => h (List.mem_cons_of_mem c hc)]
    rfl

theorem not_contains_slash (ref : String) (hc : ref.contains '/' = false) :
    '/' ∉ ref.toList := by
  intro hmem
  have := (String.contains_iff ref '/').mpr hmem
  rw [hc] at this
  cases this

/-- C8 (amended): the CLI's `encode_project_id` percent-encodes exactly the
`/` characters; references without `/` (numeric ones included) pass through
both encoders unchanged; but the endpoint resolver `project_get_by_id`
applies the full `urlencoding::encode` to any reference containing `/`, which
agrees with slash-only encoding exactly on references whose other characters
are all URL-unreserved. -/
theorem c8_encoding_theorem :
    (∀ ref : String, encode_project_id ref = slash_only_encode ref) ∧
    (∀ ref : String, ref.contains '/' = false →
      project_ref_encoded ref = ref ∧ encode_project_id ref = ref) ∧
    (∀ ref : String, (∀ c ∈ ref.toList, isUrlUnreserved c = true ∨ c = '/') →
      project_ref_encoded ref = slash_only_encode ref) := by
  refine ⟨?_, ?_, ?_⟩
  · intro ref
    by_cases hc : ref.contains '/' = true
    · simp only [encode_project_id, slash_only_encode, if_pos hc]
    · have hc' : ref.contains '/' = false := by simpa using hc
      simp only [encode_project_id, slash_only_encode, if_neg hc]
      rw [slash_free_map_id ref.toList (not_contains_slash ref hc')]
      rfl
  · intro ref hc
    have hcc : ¬(ref.contains '/' = true) := by simp [hc]
    refine ⟨?_, ?_⟩
    · simp only [project_ref_encoded, if_neg hcc]
    · simp only [encode_project_id, if_neg hcc]
  · intro ref h
    by_cases hc : ref.contains '/' = true
    · simp only [project_ref_encoded, slash_only_encode, urlencode, if_pos hc]
      rw [urlencode_data_eq ref.toList h]
    · have hc' : ref.contains '/' = false := by simpa using hc
      simp only [project_ref_encoded, slash_only_encode, if_neg hc]
      rw [slash_free_map_id ref.toList (not_contains_slash ref hc')]
      rfl

/-- C8 (witness): the numeric reference "123" passes through the resolver
unencoded, and for the canonical path "owner/name" the resolver's encoding
agrees with slash-only encoding. -/
theorem c8_witness :
    project_ref_encoded "123" = "123" ∧
    project_ref_encoded "owner/name" = slash_only_encode "owner/name" :=
  ⟨(c8_encoding_theorem.2.1 "123"
      ((Bool.not_eq_true _).mp fun h =>
        absurd ((String.contains_iff _ _).mp h) (by decide))).1,
   c8_encoding_theorem.2.2 "owner/name" (by decide)⟩

/-- C8 (counterexample): for the reference "a b/c" the endpoint resolver
percent-encodes the space as well (`a%20b%2Fc`), while encoding exactly the
slashes would give `a b%2Fc` — so the resolver does not encode only the `/`
characters. -/
theorem c8_counterexample :
    project_ref_encoded "a b/c" = "a%20b%2Fc" ∧
    slash_only_encode "a b/c" = "a b%2Fc" ∧
    (("a%20b%2Fc" : String) == "a b%2Fc") = false := by
  have hc : ("a b/c".contains '/') = true := (String.contains_iff _ _).mpr (by decide)
  refine ⟨?_, by decide, by decide⟩
  simp only [project_ref_encoded, if_pos hc]
  decide

/-! ## C9: the project resolver and HTTP statuses -/

/-- The outcome of serde_json deserializing `Project` from GitLab's 404 error
body `\x7b"message":"404 Project Not Found"\x7d`: the body carries none of
`Project`'s required fields, so deserialization fails with serde's
missing-field error.  serde_json is an external library, so its behavior is an
input of the embedding, not repository code; this concrete value instantiates
the counterexample. -/
def serde_project_parse_on_error_body : String → Except String Project :=
  fun _ => .error "missing field id"

/-- C9 (amended): `project_get_by_id` never inspects the response status: its
result depends only on the body, every error it returns is exactly the JSON
parse error of the body, and in particular a 404 yields the parse failure of
the error body, not a distinct NotFound error. -/
theorem c9_no_status_translation_theorem :
    (∀ (parse : String → Except String Project) (id : String)
       (r1 r2 : HttpResponse), r1.body = r2.body →
       project_get_by_id parse id r1 = project_get_by_id parse id r2) ∧
    (∀ (parse : String → Except String Project) (id : String)
       (resp : HttpResponse) (e : String),
       (project_get_by_id parse id resp).1 = .err e ↔
         parse resp.body = .error e) := by
  constructor
  · intro parse id r1 r2 hbody
    simp [project_get_by_id, hbody]
  · intro parse id resp e
    simp only [project_get_by_id]
    cases hp : parse resp.body with
    | ok p => simp
    | error e' => simp

/-- C9 (witness): a 404 response and a 200 response with the same body produce
identical resolver results — the status is ignored. -/
theorem c9_witness :
    project_get_by_id serde_project_parse_on_error_body "group/proj"
        { status := 404, body := "\x7b\"message\":\"404 Project Not Found\"\x7d" } =
      project_get_by_id serde_project_parse_on_error_body "group/proj"
        { status := 200, body := "\x7b\"message\":\"404 Project Not Found\"\x7d" } :=
  c9_no_status_translation_theorem.1 serde_project_parse_on_error_body "group/proj"
    { status := 404, body := "\x7b\"message\":\"404 Project Not Found\"\x7d" }
    { status := 200, body := "\x7b\"message\":\"404 Project Not Found\"\x7d" }
    rfl

/-- C9 (counterexample): on a 404 response the resolver returns the JSON parse
failure of the error body, not the distinct "NotFound" error the claim
requires. -/
theorem c9_counterexample :
    project_get_by_id serde_project_parse_on_error_body "group/proj"
        { status := 404, body := "\x7b\"message\":\"404 Project Not Found\"\x7d" } =
      (.err "missing field id",
       [.apiGet ("/projects/" ++ project_ref_encoded "group/proj")]) ∧
    ((Outcome.err "missing field id" : Outcome Project) == .err "NotFound") = false := by
  exact ⟨rfl, by decide⟩

/-! ## C10: pattern takes precedence over exact filename -/

/-- C10: when both a pattern and an exact filename are supplied, `make_filter`
silently picks the pattern variant (no error, no panic), and the whole
download invocation behaves exactly as if no filename had been given. -/
theorem c10_pattern_precedence_theorem :
    ∀ (p : Regexp) (fn : String),
      make_filter (some p) (some fn) = .ok (.pattern p) ∧
      ∀ (s : Server) (a : PackageAction) (dir : String) (b : Bool)
        (ver : Option String) (lat : Option Bool),
        a.download_files s dir b (some p) (some fn) ver lat =
          a.download_files s dir b (some p) none ver lat :=
  fun _ _ => ⟨rfl, fun _ _ _ _ _ _ => rfl⟩

end Glabu
